import Mathlib

/-!
Verification development for the pagetext-to-flashcards repository.

The repository has two core routines:

* `scrapePage` (src/scrape_page.js): fetches a page, enumerates DOM elements
  (optionally restricted to an include list of tag names), drops every element
  whose closest ancestor-or-self matches one of the exclude selectors
  (tag names, id substrings, class substrings), and emits each surviving
  element's whitespace-normalized `textContent`.
* `formatResponse` (src/unnamed/part_000, the flashcard-generation module):
  extracts question/answer pairs from the chat response content with the
  global regex
  `(?:\d+\.\s*)?[\*]*\s*Q:\s*(.+?)\s*[\*]*\s*A:\s*(.+?)(?=\n\d+\.|\nQ:|\n$)`
  (flags g, m, s).

Both are embedded below as executable Lean functions, translated directly
from the JavaScript source.
-/

namespace PageText

/-! ### JavaScript string primitives -/

/-- The JavaScript whitespace class `\s` (also the class removed by
`String.prototype.trim`): space, tab, line feed, carriage return, vertical
tab, form feed, NBSP, and the Unicode space separators. -/
def jsIsSpace (c : Char) : Bool :=
  c == ' ' || c == '\t' || c == '\n' || c == '\r' ||
  c == '\x0b' || c == '\x0c' || c == '\u00A0' || c == '\u1680' ||
  ('\u2000' ≤ c && c ≤ '\u200A') || c == '\u2028' || c == '\u2029' ||
  c == '\u202F' || c == '\u205F' || c == '\u3000' || c == '\uFEFF'

/-- `replace(/\s+/g, " ")`, scanned left to right: `inRun` records whether
the previous character was part of a whitespace run, so every maximal run of
whitespace becomes a single space character. -/
def collapseWsAux (inRun : Bool) : List Char → List Char
  | [] => []
  | c :: cs =>
    if jsIsSpace c then
      if inRun then collapseWsAux true cs
      else ' ' :: collapseWsAux true cs
    else c :: collapseWsAux false cs

/-- `replace(/\s+/g, " ")`: every maximal run of whitespace becomes a single
space character. -/
def collapseWs (l : List Char) : List Char := collapseWsAux false l

/-- `String.prototype.trim()` on a character list. -/
def jsTrim (l : List Char) : List Char :=
  ((l.dropWhile jsIsSpace).reverse.dropWhile jsIsSpace).reverse

/-- `text.replace(/\s+/g, " ").trim()` from src/scrape_page.js line 70. -/
def normalizeWs (s : String) : String :=
  ⟨jsTrim (collapseWs s.data)⟩

/-- `needle` is a prefix of `hay` (character lists). -/
def listIsPrefixOf : List Char → List Char → Bool
  | [], _ => true
  | _ :: _, [] => false
  | a :: as, b :: bs => a == b && listIsPrefixOf as bs

/-- `needle` occurs as a contiguous substring of `hay`; the semantics of the
CSS attribute operator `*=` for a non-empty value (and of JS
`String.prototype.includes`). -/
def hasSubstr (hay needle : List Char) : Bool :=
  match hay with
  | [] => listIsPrefixOf needle []
  | c :: rest => listIsPrefixOf needle (c :: rest) || hasSubstr rest needle

/-- `Array.prototype.join(",")`, used by src/scrape_page.js to build
`excludeElementSelectors` and `includeSelectors`. -/
def joinComma : List String → String
  | [] => ""
  | [s] => s
  | s :: r :: rest => s ++ "," ++ joinComma (r :: rest)

/-- A character legal in a plain (unescaped) CSS type-selector name. -/
def plainChar (c : Char) : Bool :=
  (c.isAlpha && c.isLower) || c.isDigit || c == '-'

/-- A plain selector name: non-empty, made of lower-case letters, digits and
hyphens.  For such names the CSS selectors built by src/scrape_page.js are
valid and a type selector matches exactly the elements with that tag name. -/
def plainName (s : String) : Bool :=
  !s.data.isEmpty && s.data.all plainChar

/-! ### DOM model

A parsed document is a forest of nodes: text nodes and element nodes with a
tag name, an `id` attribute, a `class` attribute and children.  The sibling
list is its own inductive (`Forest`) so that all tree traversals are
structurally recursive and compute inside the kernel. -/

mutual

inductive Node where
  | text (s : String)
  | elem (tag idAttr classAttr : String) (children : Forest)

inductive Forest where
  | nil
  | cons (head : Node) (tail : Forest)

end

/-- Build a forest from a list of sibling nodes. -/
def Forest.ofList : List Node → Forest
  | [] => .nil
  | n :: ns => .cons n (Forest.ofList ns)

def Node.tag : Node → String
  | .text _ => ""
  | .elem t _ _ _ => t

def Node.idAttr : Node → String
  | .text _ => ""
  | .elem _ i _ _ => i

def Node.classAttr : Node → String
  | .text _ => ""
  | .elem _ _ c _ => c

/-- Concatenated text of all text nodes of a forest, in document order. -/
def textContentF : Forest → String
  | .nil => ""
  | .cons (.text s) rest => s ++ textContentF rest
  | .cons (.elem _ _ _ cs) rest => textContentF cs ++ textContentF rest

/-- `element.textContent`: concatenation of all descendant text nodes. -/
def Node.textContent : Node → String
  | .text s => s
  | .elem _ _ _ cs => textContentF cs

/-- All elements of a forest in document (pre-)order, each paired with its
ancestor-or-self chain, closest first: the list a `closest()` call walks.
`anc` is the chain of ancestors of the forest itself. -/
def collectElements (anc : List Node) : Forest → List (Node × List Node)
  | .nil => []
  | .cons (.text _) rest => collectElements anc rest
  | .cons (.elem t i c cs) rest =>
    (Node.elem t i c cs, Node.elem t i c cs :: anc) ::
      (collectElements (Node.elem t i c cs :: anc) cs ++ collectElements anc rest)

/-! ### The text extractor (src/scrape_page.js) -/

/-- One element matches the combined exclude selector list
`excludeElements,[id*="…"],[class*="…"],…`: its tag name is one of the
excluded tag names, or its id attribute contains one of the excluded id
strings as a substring, or its class attribute contains one of the excluded
class strings as a substring.  Per the CSS specification `[attr*=""]` (empty
value) matches nothing. -/
def matchesExcludeSelector
    (excludeElements excludeIDs excludeClasses : List String) (n : Node) : Bool :=
  excludeElements.contains n.tag
    || excludeIDs.any (fun s => !(s == "") && hasSubstr n.idAttr.data s.data)
    || excludeClasses.any (fun s => !(s == "") && hasSubstr n.classAttr.data s.data)

/-- Truthiness of `combinedExcludeSelectors`: the three selector strings are
joined after `.filter(Boolean)`, so the combined string is non-empty iff the
tag join is non-empty or either map over a non-empty list produced an
`[id*=…]` / `[class*=…]` selector. -/
def excludeSelectorsActive (excludeElements excludeIDs excludeClasses : List String) : Bool :=
  !(joinComma excludeElements == "") || !excludeIDs.isEmpty || !excludeClasses.isEmpty

/-- The elements the `forEach` loop of src/scrape_page.js visits:
`document.querySelectorAll(includeSelectors)` when `includeSelectors` is
truthy and `document.querySelectorAll("*")` otherwise, in document order. -/
def candidatesOf (doc : Forest) (includeElements : List String) :
    List (Node × List Node) :=
  if !(joinComma includeElements == "") then
    (collectElements [] doc).filter (fun p => includeElements.contains p.1.tag)
  else
    collectElements [] doc

/-- The candidates that survive the exclusion check: a candidate is dropped
when `element.closest(combinedExcludeSelectors)` finds a matching
ancestor-or-self (only checked when the combined selector string is
truthy). -/
def keptCandidates (doc : Forest)
    (excludeElements excludeIDs excludeClasses includeElements : List String) :
    List (Node × List Node) :=
  if excludeSelectorsActive excludeElements excludeIDs excludeClasses then
    (candidatesOf doc includeElements).filter
      (fun p => !(p.2.any (matchesExcludeSelector excludeElements excludeIDs excludeClasses)))
  else
    candidatesOf doc includeElements

/-- The push phase: `element.textContent.replace(/\s+/g, " ").trim()`,
pushed only when truthy (non-empty). -/
def emitTexts (l : List (Node × List Node)) : List String :=
  (l.map (fun p => normalizeWs p.1.textContent)).filter (fun t => !(t == ""))

/-- `outputTexts` as computed inside the `try` block of `scrapePage`, given
the parsed document. -/
def scrapeDoc (doc : Forest)
    (excludeElements excludeIDs excludeClasses includeElements : List String) :
    List String :=
  emitTexts (keptCandidates doc excludeElements excludeIDs excludeClasses includeElements)

/-- `scrapePage(url, excludeElements, excludeIDs, excludeClasses,
includeElements)`.  `url = none` models an absent or non-string argument;
`fetched = none` models the `axios.get` / `JSDOM` step failing, in which case
the `catch` branch logs and returns `[]`. -/
def scrapePage (url : Option String) (fetched : Option Forest)
    (excludeElements excludeIDs excludeClasses includeElements : List String) :
    Except String (List String) :=
  match url with
  | none => .error "Invalid URL provided"
  | some u =>
    if u = "" then .error "Invalid URL provided"
    else
      match fetched with
      | none => .ok []
      | some doc =>
        .ok (scrapeDoc doc excludeElements excludeIDs excludeClasses includeElements)

/-! ### The pair extractor (src/unnamed/part_000, `formatResponse`)

The JavaScript code matches the content against the global regex

  `(?:\d+\.\s*)?[\*]*\s*Q:\s*(.+?)\s*[\*]*\s*A:\s*(.+?)(?=\n\d+\.|\nQ:|\n$)`

with flags `g`, `m`, `s` (so `.` also matches newlines and `$` matches at end
of input or before a line feed), and pushes `{front: match[1].trim(), back:
match[2].trim()}` for every match.

The embedding below is a backtracking matcher for exactly this pattern.  A
sub-pattern is a function from the input suffix to the list of its possible
(consumed, remaining) splits in the priority order of the backtracking
engine: for a greedy quantifier the longest consumption first, for a lazy
quantifier the shortest first, for `(?:…)?` the matching branch before the
empty branch.  The full pattern enumerates the choice points left to right
(nested `firstSome`), which is exactly the depth-first order in which a
backtracking engine visits the alternatives, and keeps the first success. -/

/-- The possible (consumed, remaining) splits of one sub-pattern, in
backtracking priority order. -/
abbrev MR := List (List Char × List Char)

/-- A single literal character. -/
def mlit (x : Char) : List Char → MR
  | [] => []
  | c :: cs => if c == x then [([c], cs)] else []

/-- The empty pattern. -/
def mempty : List Char → MR := fun s => [([], s)]

/-- Sequencing: all splits of `a`, each continued with all splits of `b`;
the priority of the earlier pattern dominates. -/
def mseq (a b : List Char → MR) : List Char → MR := fun s =>
  (a s).flatMap (fun pr => (b pr.2).map (fun qr => (pr.1 ++ qr.1, qr.2)))

/-- A greedy optional group `(?:…)?`: the matching branch first, then the
empty branch. -/
def mopt (a : List Char → MR) : List Char → MR := fun s => a s ++ [([], s)]

/-- The splits of a character-class star, least consumption first
(the order of a lazy `*`). -/
def starSplits (p : Char → Bool) : List Char → MR
  | [] => [([], [])]
  | c :: cs =>
    ([], c :: cs) ::
      (if p c then (starSplits p cs).map (fun pr => (c :: pr.1, pr.2)) else [])

/-- A greedy character-class star (`\s*`, `[\*]*`): longest first. -/
def mstarG (p : Char → Bool) : List Char → MR := fun s => (starSplits p s).reverse

/-- A greedy character-class plus (`\d+`): longest first, at least one. -/
def mplusG (p : Char → Bool) : List Char → MR := fun s =>
  ((starSplits p s).reverse).filter (fun pr => !pr.1.isEmpty)

/-- The lazy dot-plus `(.+?)` under the `s` flag: any characters, at least
one, shortest first. -/
def mdotPlusL : List Char → MR := fun s =>
  (starSplits (fun _ => true) s).filter (fun pr => !pr.1.isEmpty)

/-- A literal string. -/
def mstr : List Char → List Char → MR
  | [] => mempty
  | c :: cs => mseq (mlit c) (mstr cs)

/-- The character class `[\*]`. -/
def isStarChar (c : Char) : Bool := c == '*'

/-- The lookahead `(?=\n\d+\.|\nQ:|\n$)`.  With the `m` flag `$` matches at
end of input or immediately before a line feed, so the third alternative is
a line feed at end of input or followed by another line feed. -/
def lookAheadQA (s : List Char) : Bool :=
  match s with
  | '\n' :: rest =>
    (!(rest.takeWhile Char.isDigit).isEmpty &&
      (match rest.dropWhile Char.isDigit with
       | '.' :: _ => true
       | _ => false))
    || (match rest with
        | 'Q' :: ':' :: _ => true
        | _ => false)
    || (match rest with
        | [] => true
        | '\n' :: _ => true
        | _ => false)
  | _ => false

/-- The optional ordinal prefix `(?:\d+\.\s*)?`. -/
def ordinalOptM : List Char → MR :=
  mopt (mseq (mplusG Char.isDigit) (mseq (mlit '.') (mstarG jsIsSpace)))

/-- The pattern prefix `(?:\d+\.\s*)?[\*]*\s*Q:`. -/
def qaPrefixM : List Char → MR :=
  mseq ordinalOptM (mseq (mstarG isStarChar) (mseq (mstarG jsIsSpace) (mstr ['Q', ':'])))

/-- The part `\s*[\*]*\s*A:` between the two capture groups. -/
def midM : List Char → MR :=
  mseq (mstarG jsIsSpace) (mseq (mstarG isStarChar) (mseq (mstarG jsIsSpace) (mstr ['A', ':'])))

/-- First success of `f` over a list of alternatives in priority order. -/
def firstSome (f : α → Option β) : List α → Option β
  | [] => none
  | a :: as =>
    match f a with
    | some b => some b
    | none => firstSome f as

/-- Attempt the whole pattern at this exact position.  On success returns
(group 1, group 2, remaining input after the match); the lookahead is
zero-width, so the remaining input starts right after group 2. -/
def tryMatchQA (s : List Char) : Option (List Char × List Char × List Char) :=
  firstSome (fun pr0 =>
    firstSome (fun sp1 =>
      firstSome (fun g1 =>
        firstSome (fun mid =>
          firstSome (fun sp2 =>
            firstSome (fun g2 =>
              if lookAheadQA g2.2 then some (g1.1, g2.1, g2.2) else none)
              (mdotPlusL sp2.2))
            (mstarG jsIsSpace mid.2))
          (midM g1.2))
        (mdotPlusL sp1.2))
      (mstarG jsIsSpace pr0.2))
    (qaPrefixM s)

/-- The `while ((match = regex.exec(content)) !== null)` loop: search for the
leftmost match from the current position, emit its two capture groups, and
continue right after the match.  Every match consumes at least the two
characters of `Q:`, so a fuel of one more than the input length is never
exhausted. -/
def regexScan : Nat → List Char → List (List Char × List Char)
  | 0, _ => []
  | Nat.succ fuel, s =>
    match tryMatchQA s with
    | some (g1, g2, rest) => (g1, g2) :: regexScan fuel rest
    | none =>
      match s with
      | [] => []
      | _ :: cs => regexScan fuel cs

/-- A flashcard as built by `formatResponse`: `{front, back}`. -/
structure Flashcard where
  front : String
  back : String
deriving DecidableEq, Repr

/-- The regex-extraction part of `formatResponse`: all matches of the
pattern over the content, each emitted as a flashcard with the two trimmed
capture groups. -/
def extractPairs (content : String) : List Flashcard :=
  (regexScan (content.data.length + 1) content.data).map
    (fun g => { front := ⟨jsTrim g.1⟩, back := ⟨jsTrim g.2⟩ })

/-- The chat response as read by `formatResponse`: the model only ever
accesses `response.choices[0].message.content`; `none` models that field
being absent anywhere along that path. -/
structure ChatResponse where
  content : Option String

/-- `formatResponse(response)`: throws `"No content in the response"` when
`response.choices[0].message.content` is falsy (absent or the empty string),
otherwise extracts the question/answer pairs. -/
def formatResponse (r : ChatResponse) : Except String (List Flashcard) :=
  match r.content with
  | none => .error "No content in the response"
  | some c =>
    if c = "" then .error "No content in the response"
    else .ok (extractPairs c)

/-- The input starts with the marker `Q:`. -/
def startsWithQA : List Char → Bool
  | 'Q' :: ':' :: _ => true
  | _ => false

/-- The input contains the marker `Q:` somewhere. -/
def hasMarker : List Char → Bool
  | [] => false
  | c :: cs => startsWithQA (c :: cs) || hasMarker cs

/-- A small sample document: `<div><script>var x = 1;</script><p>hello</p></div>`. -/
def sampleDoc : Forest :=
  Forest.ofList
    [Node.elem "div" "" ""
      (Forest.ofList
        [Node.elem "script" "" "" (Forest.ofList [Node.text "var x = 1;"]),
         Node.elem "p" "" "" (Forest.ofList [Node.text "hello"])])]

/-- A one-element document whose text needs whitespace normalization. -/
def wsDoc : Forest :=
  Forest.ofList [Node.elem "p" "" "" (Forest.ofList [Node.text "  hello\n\n world \t"])]

/-! ### Helper lemmas -/

theorem plainName_ne_empty {s : String} (h : plainName s = true) : s ≠ "" := by
  intro he
  subst he
  simp [plainName] at h

theorem joinComma_cons_ne (s : String) (l : List String) (hs : s ≠ "") :
    (joinComma (s :: l) == "") = false := by
  cases l with
  | nil =>
    simp only [joinComma]
    exact beq_eq_false_iff_ne.mpr hs
  | cons r rest =>
    simp only [joinComma]
    rw [beq_eq_false_iff_ne]
    intro h
    have hlen := congrArg String.length h
    rw [String.length_append, String.length_append] at hlen
    have h1 : ("," : String).length = 1 := rfl
    have h0 : ("" : String).length = 0 := rfl
    omega

theorem joinComma_eq_empty_of_plain {l : List String}
    (hp : ∀ s ∈ l, plainName s = true) (h : (joinComma l == "") = true) : l = [] := by
  cases l with
  | nil => rfl
  | cons s rest =>
    have hne := plainName_ne_empty (hp s (List.mem_cons_self s rest))
    rw [joinComma_cons_ne s rest hne] at h
    cases h

theorem any_or_distrib (l : List α) (p q : α → Bool) :
    l.any (fun x => p x || q x) = (l.any p || l.any q) := by
  induction l with
  | nil => rfl
  | cons a t ih =>
    simp only [List.any_cons, ih]
    cases p a <;> cases q a <;> cases t.any p <;> cases t.any q <;> rfl

theorem matchesExcludeSelector_cons_tag (T : String) (eT eI eC : List String) (n : Node) :
    matchesExcludeSelector (T :: eT) eI eC n
      = ((n.tag == T) || matchesExcludeSelector eT eI eC n) := by
  simp only [matchesExcludeSelector, List.contains_cons, Bool.or_assoc]

theorem mem_candidatesOf_subset
    {doc : Forest} {inc : List String} {p : Node × List Node}
    (hp : p ∈ candidatesOf doc inc) : p ∈ collectElements [] doc := by
  simp only [candidatesOf] at hp
  split at hp
  · exact (List.mem_filter.mp hp).1
  · exact hp

theorem mem_keptCandidates_subset
    {doc : Forest} {eT eI eC inc : List String} {p : Node × List Node}
    (hp : p ∈ keptCandidates doc eT eI eC inc) : p ∈ collectElements [] doc := by
  simp only [keptCandidates] at hp
  split at hp
  · exact mem_candidatesOf_subset (List.mem_filter.mp hp).1
  · exact mem_candidatesOf_subset hp

theorem emitTexts_sublist {l1 l2 : List (Node × List Node)} (h : List.Sublist l1 l2) :
    List.Sublist (emitTexts l1) (emitTexts l2) :=
  List.Sublist.filter _ (List.Sublist.map _ h)

theorem excludeSelectorsActive_cons_tag {T : String} (hT : T ≠ "") (eT eI eC : List String) :
    excludeSelectorsActive (T :: eT) eI eC = true := by
  simp only [excludeSelectorsActive, joinComma_cons_ne T eT hT]
  rfl

theorem excludeSelectorsActive_cons_id (eT : List String) (x : String) (eI eC : List String) :
    excludeSelectorsActive eT (x :: eI) eC = true := by
  simp [excludeSelectorsActive]

theorem excludeSelectorsActive_cons_class (eT eI : List String) (x : String) (eC : List String) :
    excludeSelectorsActive eT eI (x :: eC) = true := by
  simp [excludeSelectorsActive]

theorem keptCandidates_of_active {doc : Forest} {eT eI eC inc : List String}
    (h : excludeSelectorsActive eT eI eC = true) :
    keptCandidates doc eT eI eC inc
      = (candidatesOf doc inc).filter
          (fun p => !(p.2.any (matchesExcludeSelector eT eI eC))) := by
  simp only [keptCandidates, h, if_true]

theorem keptCandidates_of_inactive {doc : Forest} {eT eI eC inc : List String}
    (h : excludeSelectorsActive eT eI eC = false) :
    keptCandidates doc eT eI eC inc = candidatesOf doc inc := by
  simp only [keptCandidates, h, Bool.false_eq_true, if_false]

theorem excludeSelectorsActive_false_elim {eT eI eC : List String}
    (hE : ∀ s ∈ eT, plainName s = true)
    (h : excludeSelectorsActive eT eI eC = false) :
    eT = [] ∧ eI = [] ∧ eC = [] := by
  unfold excludeSelectorsActive at h
  rw [Bool.or_eq_false_iff] at h
  obtain ⟨h12, h3⟩ := h
  rw [Bool.or_eq_false_iff] at h12
  obtain ⟨h1, h2⟩ := h12
  rw [Bool.not_eq_false'] at h1 h2 h3
  exact ⟨joinComma_eq_empty_of_plain hE h1, List.isEmpty_iff.mp h2, List.isEmpty_iff.mp h3⟩

theorem any_matchesExcludeSelector_nil (chain : List Node) :
    chain.any (matchesExcludeSelector [] [] []) = false := by
  cases hx : chain.any (matchesExcludeSelector [] [] []) with
  | false => rfl
  | true =>
    obtain ⟨n, _, hn⟩ := List.any_eq_true.mp hx
    simp [matchesExcludeSelector] at hn

theorem keptCandidates_cons_tag (doc : Forest) (eT eI eC inc : List String) (T : String)
    (hT : plainName T = true) (hE : ∀ s ∈ eT, plainName s = true) :
    keptCandidates doc (T :: eT) eI eC inc
      = (keptCandidates doc eT eI eC inc).filter
          (fun p => !(p.2.any (fun n => n.tag == T))) := by
  have hA : excludeSelectorsActive (T :: eT) eI eC = true :=
    excludeSelectorsActive_cons_tag (plainName_ne_empty hT) eT eI eC
  have hany : ∀ chain : List Node,
      chain.any (matchesExcludeSelector (T :: eT) eI eC)
        = (chain.any (fun n => n.tag == T)
            || chain.any (matchesExcludeSelector eT eI eC)) := by
    intro chain
    rw [← any_or_distrib]
    congr 1
    funext n
    exact matchesExcludeSelector_cons_tag T eT eI eC n
  rw [keptCandidates_of_active hA]
  cases hB : excludeSelectorsActive eT eI eC with
  | true =>
    rw [keptCandidates_of_active hB, List.filter_filter]
    apply List.filter_congr
    intro p _
    rw [hany p.2, Bool.not_or]
  | false =>
    obtain ⟨heT, heI, heC⟩ := excludeSelectorsActive_false_elim hE hB
    subst heT; subst heI; subst heC
    rw [keptCandidates_of_inactive hB]
    apply List.filter_congr
    intro p _
    rw [hany p.2, any_matchesExcludeSelector_nil p.2, Bool.or_false]

theorem kept_sublist_of_mono (doc : Forest) (eT eI eC eT2 eI2 eC2 inc : List String)
    (hmono : ∀ n : Node, matchesExcludeSelector eT eI eC n = true →
        matchesExcludeSelector eT2 eI2 eC2 n = true)
    (hact : excludeSelectorsActive eT2 eI2 eC2 = true) :
    List.Sublist (keptCandidates doc eT2 eI2 eC2 inc) (keptCandidates doc eT eI eC inc) := by
  rw [keptCandidates_of_active hact]
  cases hB : excludeSelectorsActive eT eI eC with
  | false =>
    rw [keptCandidates_of_inactive hB]
    exact List.filter_sublist _
  | true =>
    rw [keptCandidates_of_active hB]
    apply List.monotone_filter_right
    intro p hp
    show (!(p.2.any (matchesExcludeSelector eT eI eC))) = true
    have hp2 : p.2.any (matchesExcludeSelector eT2 eI2 eC2) = false := by
      have := hp
      rwa [Bool.not_eq_true'] at this
    rw [Bool.not_eq_true']
    cases hx : p.2.any (matchesExcludeSelector eT eI eC) with
    | false => rfl
    | true =>
      exfalso
      obtain ⟨n, hn, hmn⟩ := List.any_eq_true.mp hx
      have h2 : p.2.any (matchesExcludeSelector eT2 eI2 eC2) = true :=
        List.any_eq_true.mpr ⟨n, hn, hmono n hmn⟩
      rw [hp2] at h2
      exact Bool.false_ne_true h2

theorem matchesExcludeSelector_cons_id (x : String) (eT eI eC : List String) (n : Node) :
    matchesExcludeSelector eT (x :: eI) eC n
      = ((!(x == "") && hasSubstr n.idAttr.data x.data)
          || matchesExcludeSelector eT eI eC n) := by
  simp only [matchesExcludeSelector, List.any_cons]
  cases eT.contains n.tag <;>
    cases (!(x == "") && hasSubstr n.idAttr.data x.data) <;>
      cases eI.any (fun s => !(s == "") && hasSubstr n.idAttr.data s.data) <;>
        cases eC.any (fun s => !(s == "") && hasSubstr n.classAttr.data s.data) <;> rfl

theorem matchesExcludeSelector_cons_class (x : String) (eT eI eC : List String) (n : Node) :
    matchesExcludeSelector eT eI (x :: eC) n
      = ((!(x == "") && hasSubstr n.classAttr.data x.data)
          || matchesExcludeSelector eT eI eC n) := by
  simp only [matchesExcludeSelector, List.any_cons]
  cases eT.contains n.tag <;>
    cases (!(x == "") && hasSubstr n.classAttr.data x.data) <;>
      cases eI.any (fun s => !(s == "") && hasSubstr n.idAttr.data s.data) <;>
        cases eC.any (fun s => !(s == "") && hasSubstr n.classAttr.data s.data) <;> rfl

/-! ### Claims C5, C6, C7, C8, C9 -/

/-- C5: with an empty include set and empty exclude sets, the extractor
returns, for every element of the tree in document order, its
whitespace-collapsed and trimmed concatenated descendant text whenever it is
non-empty — including the duplicate where nested markup
`<div><p>text</p></div>` yields "text" once for the `p` and once for the
`div`. -/
theorem claim5_empty_filter :
    (∀ doc : Forest,
      scrapeDoc doc [] [] [] []
        = ((collectElements [] doc).map (fun p => normalizeWs p.1.textContent)).filter
            (fun t => !(t == "")))
    ∧ scrapeDoc
        (Forest.ofList
          [Node.elem "div" "" "" (Forest.ofList [Node.elem "p" "" "" (Forest.ofList [Node.text "text"])])])
        [] [] [] [] = ["text", "text"] := by
  constructor
  · intro doc
    rfl
  · simp only [scrapeDoc, keptCandidates, emitTexts, collectElements]
    decide

/-- C6: for every well-formed (non-empty) URL, a failing fetch/parse step
returns an empty list rather than an error, and the same empty list is also
the genuine result of scraping a document with no matching text — the caller
cannot tell the two apart from the return value. -/
theorem claim6_silent_empty (u : String) (hu : u ≠ "") (eT eI eC inc : List String) :
    scrapePage (some u) none eT eI eC inc = .ok []
    ∧ scrapePage (some u) (some Forest.nil) eT eI eC inc = .ok [] := by
  constructor
  · simp [scrapePage, hu]
  · have hd : scrapeDoc Forest.nil eT eI eC inc = [] := by
      simp [scrapeDoc, keptCandidates, candidatesOf, collectElements, emitTexts]
    simp [scrapePage, hu, hd]

/-- C7: every emitted fragment is the whitespace-collapsed, trimmed text
content of some element of the document and is non-empty; in particular the
raw text "  hello\n\n world \t" normalizes to "hello world". -/
theorem claim7_normalization :
    (∀ (doc : Forest) (eT eI eC inc : List String) (t : String),
        t ∈ scrapeDoc doc eT eI eC inc →
          t ≠ "" ∧ ∃ p ∈ collectElements [] doc, t = normalizeWs p.1.textContent)
    ∧ normalizeWs "  hello\n\n world \t" = "hello world" := by
  constructor
  · intro doc eT eI eC inc t ht
    simp only [scrapeDoc, emitTexts] at ht
    have hf := List.mem_filter.mp ht
    obtain ⟨p, hp, hpt⟩ := List.mem_map.mp hf.1
    refine ⟨?_, p, mem_keptCandidates_subset hp, hpt.symm⟩
    have := hf.2
    rw [Bool.not_eq_true'] at this
    exact beq_eq_false_iff_ne.mp this
  · rfl

/-- C8: the extractor is deterministic — two runs on identical markup and an
identical filter produce identical results. -/
theorem claim8_deterministic (url : Option String) (fetched : Option Forest)
    (eT eI eC inc : List String) (r1 r2 : Except String (List String))
    (h1 : r1 = scrapePage url fetched eT eI eC inc)
    (h2 : r2 = scrapePage url fetched eT eI eC inc) : r1 = r2 :=
  h1.trans h2.symm

/-- C9: an absent, non-string or empty URL makes `scrapePage` throw
"Invalid URL provided" regardless of what the fetch step would return — the
error precedes any fetch or parse. -/
theorem claim9_invalid_url (url : Option String) (fetched : Option Forest)
    (eT eI eC inc : List String) (h : url = none ∨ url = some "") :
    scrapePage url fetched eT eI eC inc = .error "Invalid URL provided" := by
  rcases h with h | h <;> subst h <;> simp [scrapePage]

/-! ### Claims C2 and C10 -/

/-- C2: for every document and filter, adding a (plain) tag name `T` to the
exclude-tags set removes from the output exactly the fragments of the
candidates whose ancestor-or-self chain contains a `T` element — i.e. of the
`T` elements themselves and of every element nested below one, whether or
not the nested element matches an exclusion rule itself — and leaves every
other fragment unchanged, in order. -/
theorem claim2_exclude_tag (doc : Forest) (eT eI eC inc : List String) (T : String)
    (hT : plainName T = true) (hE : ∀ s ∈ eT, plainName s = true) :
    scrapeDoc doc (T :: eT) eI eC inc
      = emitTexts ((keptCandidates doc eT eI eC inc).filter
          (fun p => !(p.2.any (fun n => n.tag == T)))) := by
  unfold scrapeDoc
  rw [keptCandidates_cons_tag doc eT eI eC inc T hT hE]

/-- C10: exclusion is monotone — adding any (plain) entry to any of the
three exclude sets, with the include set fixed, yields an output sequence
that is a subsequence of the previous output: no new fragment appears, no
surviving fragment changes value, and relative order is preserved. -/
theorem claim10_exclusion_monotone (doc : Forest) (eT eI eC inc : List String)
    (entry : String) (hp : plainName entry = true) :
    List.Sublist (scrapeDoc doc (entry :: eT) eI eC inc) (scrapeDoc doc eT eI eC inc)
    ∧ List.Sublist (scrapeDoc doc eT (entry :: eI) eC inc) (scrapeDoc doc eT eI eC inc)
    ∧ List.Sublist (scrapeDoc doc eT eI (entry :: eC) inc) (scrapeDoc doc eT eI eC inc) := by
  refine ⟨?_, ?_, ?_⟩
  · apply emitTexts_sublist
    apply kept_sublist_of_mono
    · intro n h
      rw [matchesExcludeSelector_cons_tag, h, Bool.or_true]
    · exact excludeSelectorsActive_cons_tag (plainName_ne_empty hp) eT eI eC
  · apply emitTexts_sublist
    apply kept_sublist_of_mono
    · intro n h
      rw [matchesExcludeSelector_cons_id, h, Bool.or_true]
    · exact excludeSelectorsActive_cons_id eT entry eI eC
  · apply emitTexts_sublist
    apply kept_sublist_of_mono
    · intro n h
      rw [matchesExcludeSelector_cons_class, h, Bool.or_true]
    · exact excludeSelectorsActive_cons_class eT eI entry eC

/-! ### Matcher lemmas: every split returned by a sub-pattern is a split of
its input, and a successful match of the pattern prefix contains the literal
marker `Q:`. -/

theorem mlit_mem {x : Char} {s : List Char} {pr : List Char × List Char}
    (h : pr ∈ mlit x s) : pr.1 = [x] ∧ s = x :: pr.2 := by
  cases s with
  | nil => simp [mlit] at h
  | cons c cs =>
    simp only [mlit] at h
    by_cases hc : (c == x) = true
    · rw [if_pos hc] at h
      have hcx := eq_of_beq hc
      subst hcx
      cases h with
      | head => exact ⟨rfl, rfl⟩
      | tail _ h2 => cases h2
    · rw [if_neg hc] at h
      cases h

theorem mlit_splits (x : Char) :
    ∀ (s : List Char) (pr : List Char × List Char), pr ∈ mlit x s → pr.1 ++ pr.2 = s := by
  intro s pr h
  obtain ⟨h1, h2⟩ := mlit_mem h
  rw [h2, h1]
  rfl

theorem mempty_mem {s : List Char} {pr : List Char × List Char}
    (h : pr ∈ mempty s) : pr = ([], s) := by
  simpa [mempty] using h

theorem mseq_mem {a b : List Char → MR} {s : List Char} {pr : List Char × List Char}
    (h : pr ∈ mseq a b s) :
    ∃ c1 r1 c2, (c1, r1) ∈ a s ∧ (c2, pr.2) ∈ b r1 ∧ pr.1 = c1 ++ c2 := by
  simp only [mseq] at h
  rw [List.mem_flatMap] at h
  obtain ⟨pa, hpa, hm⟩ := h
  rw [List.mem_map] at hm
  obtain ⟨pb, hpb, he⟩ := hm
  subst he
  exact ⟨pa.1, pa.2, pb.1, hpa, by simpa using hpb, rfl⟩

theorem mseq_splits {a b : List Char → MR}
    (ha : ∀ s pr, pr ∈ a s → pr.1 ++ pr.2 = s)
    (hb : ∀ s pr, pr ∈ b s → pr.1 ++ pr.2 = s) :
    ∀ (s : List Char) (pr : List Char × List Char), pr ∈ mseq a b s → pr.1 ++ pr.2 = s := by
  intro s pr h
  obtain ⟨c1, r1, c2, h1, h2, he⟩ := mseq_mem h
  have e1 := ha s (c1, r1) h1
  have e2 := hb r1 (c2, pr.2) h2
  simp only at e1 e2
  rw [he, List.append_assoc, e2]
  exact e1

theorem mopt_splits {a : List Char → MR}
    (ha : ∀ s pr, pr ∈ a s → pr.1 ++ pr.2 = s) :
    ∀ (s : List Char) (pr : List Char × List Char), pr ∈ mopt a s → pr.1 ++ pr.2 = s := by
  intro s pr h
  simp only [mopt] at h
  rw [List.mem_append] at h
  rcases h with h | h
  · exact ha s pr h
  · simp only [List.mem_singleton] at h
    simp [h]

theorem starSplits_splits (p : Char → Bool) :
    ∀ (s : List Char) (pr : List Char × List Char), pr ∈ starSplits p s → pr.1 ++ pr.2 = s := by
  intro s
  induction s with
  | nil =>
    intro pr h
    simp only [starSplits, List.mem_singleton] at h
    simp [h]
  | cons c cs ih =>
    intro pr h
    simp only [starSplits] at h
    cases h with
    | head => rfl
    | tail _ h2 =>
      by_cases hp : p c = true
      · rw [if_pos hp] at h2
        obtain ⟨q, hq, he⟩ := List.mem_map.mp h2
        subst he
        simp only [List.cons_append]
        rw [ih q hq]
      · rw [if_neg hp] at h2
        cases h2

theorem mstarG_splits (p : Char → Bool) :
    ∀ (s : List Char) (pr : List Char × List Char), pr ∈ mstarG p s → pr.1 ++ pr.2 = s := by
  intro s pr h
  simp only [mstarG] at h
  exact starSplits_splits p s pr (List.mem_reverse.mp h)

theorem mplusG_splits (p : Char → Bool) :
    ∀ (s : List Char) (pr : List Char × List Char), pr ∈ mplusG p s → pr.1 ++ pr.2 = s := by
  intro s pr h
  simp only [mplusG] at h
  have := (List.mem_filter.mp h).1
  exact starSplits_splits p s pr (List.mem_reverse.mp this)

theorem mstr_mem : ∀ (pat s : List Char) (pr : List Char × List Char),
    pr ∈ mstr pat s → pr.1 = pat ∧ s = pat ++ pr.2 := by
  intro pat
  induction pat with
  | nil =>
    intro s pr h
    have he := mempty_mem (by simpa [mstr] using h)
    simp [he]
  | cons c cs ih =>
    intro s pr h
    simp only [mstr] at h
    obtain ⟨c1, r1, c2, h1, h2, he⟩ := mseq_mem h
    obtain ⟨hc1, hs⟩ := mlit_mem h1
    obtain ⟨hc2, hr⟩ := ih r1 (c2, pr.2) h2
    simp only at hc1 hs hc2 hr
    constructor
    · rw [he, hc1, hc2]
      rfl
    · rw [hs, hr]
      rfl

theorem ordinalOptM_splits :
    ∀ (s : List Char) (pr : List Char × List Char), pr ∈ ordinalOptM s → pr.1 ++ pr.2 = s :=
  mopt_splits
    (mseq_splits (mplusG_splits Char.isDigit)
      (mseq_splits (mlit_splits '.') (mstarG_splits jsIsSpace)))

theorem qaPrefixM_marker {s : List Char} {pr : List Char × List Char}
    (h : pr ∈ qaPrefixM s) : ∃ u v : List Char, s = u ++ 'Q' :: ':' :: v := by
  simp only [qaPrefixM] at h
  obtain ⟨c1, r1, c2, h1, h2, _⟩ := mseq_mem h
  have e1 := ordinalOptM_splits s (c1, r1) h1
  obtain ⟨c2a, r2, c2b, h2a, h2b, _⟩ := mseq_mem h2
  have e2 := mstarG_splits isStarChar r1 (c2a, r2) h2a
  obtain ⟨c3a, r3, c3b, h3a, h3b, _⟩ := mseq_mem h2b
  have e3 := mstarG_splits jsIsSpace r2 (c3a, r3) h3a
  obtain ⟨_, hq⟩ := mstr_mem ['Q', ':'] r3 _ h3b
  simp only at e1 e2 e3 hq
  refine ⟨c1 ++ (c2a ++ c3a), pr.2, ?_⟩
  rw [← e1, ← e2, ← e3, hq]
  simp [List.append_assoc]

theorem hasMarker_decomp (u v : List Char) : hasMarker (u ++ 'Q' :: ':' :: v) = true := by
  induction u with
  | nil => rfl
  | cons c cs ih =>
    rw [List.cons_append]
    show (startsWithQA _ || hasMarker (cs ++ 'Q' :: ':' :: v)) = true
    rw [ih, Bool.or_true]

theorem firstSome_eq_some {f : α → Option β} {l : List α} {b : β}
    (h : firstSome f l = some b) : ∃ a ∈ l, f a = some b := by
  induction l with
  | nil => simp [firstSome] at h
  | cons a as ih =>
    cases hfa : f a with
    | some b2 =>
      simp only [firstSome, hfa] at h
      exact ⟨a, List.mem_cons_self a as, by rw [hfa, h]⟩
    | none =>
      simp only [firstSome, hfa] at h
      obtain ⟨x, hx, hfx⟩ := ih h
      exact ⟨x, List.mem_cons_of_mem a hx, hfx⟩

theorem tryMatchQA_eq_none_of_no_marker {s : List Char} (h : hasMarker s = false) :
    tryMatchQA s = none := by
  cases ht : tryMatchQA s with
  | none => rfl
  | some r =>
    exfalso
    obtain ⟨pr0, hpr0, _⟩ := firstSome_eq_some (by simpa [tryMatchQA] using ht)
    obtain ⟨u, v, huv⟩ := qaPrefixM_marker hpr0
    rw [huv, hasMarker_decomp] at h
    cases h

theorem regexScan_succ (n : Nat) (s : List Char) :
    regexScan (Nat.succ n) s
      = match tryMatchQA s with
        | some (g1, g2, rest) => (g1, g2) :: regexScan n rest
        | none =>
          match s with
          | [] => []
          | _ :: cs => regexScan n cs := rfl

theorem regexScan_no_marker : ∀ (fuel : Nat) (s : List Char),
    hasMarker s = false → regexScan fuel s = [] := by
  intro fuel
  induction fuel with
  | zero => intro s _; rfl
  | succ n ih =>
    intro s h
    rw [regexScan_succ, tryMatchQA_eq_none_of_no_marker h]
    cases s with
    | nil => rfl
    | cons c cs =>
      apply ih
      have h2 := h
      rw [hasMarker, Bool.or_eq_false_iff] at h2
      exact h2.2

/-! ### Claims C1, C3, C4 -/

/-- C1 counterexample: on the input
`"Q: What is 2+2? A: 4\nQ: What is the capital of France? A: Paris"`
(no trailing newline) `extractPairs` does not return the two pairs the claim
asserts — the final Q/A block at end of input is not matched. -/
theorem claim1_counterexample :
    extractPairs "Q: What is 2+2? A: 4\nQ: What is the capital of France? A: Paris"
      ≠ [{ front := "What is 2+2?", back := "4" },
         { front := "What is the capital of France?", back := "Paris" }] := by
  decide

/-- C1 amended: on that input `extractPairs` returns exactly the one pair
`{front := "What is 2+2?", back := "4"}`.  The first block is matched
because it is followed by `\nQ:`; the final block is not matched because the
terminating lookahead `(?=\n\d+\.|\nQ:|\n$)` requires a literal newline in
each alternative (under the `m` flag `\n$` is a newline at a line end, not
bare end of input). -/
theorem claim1_amended :
    extractPairs "Q: What is 2+2? A: 4\nQ: What is the capital of France? A: Paris"
      = [{ front := "What is 2+2?", back := "4" }] := by
  decide

/-- C3 counterexample: on the ordinal-prefixed, emphasis-wrapped input
`"1. **Q: Foo? A: Bar**\n2. **Q: Baz? A: Qux**"` the extractor does not
return two pairs with the emphasis characters stripped: only one pair is
returned, and its back retains the trailing `**`. -/
theorem claim3_counterexample :
    ¬ ((extractPairs "1. **Q: Foo? A: Bar**\n2. **Q: Baz? A: Qux**").length = 2
        ∧ ∀ p ∈ extractPairs "1. **Q: Foo? A: Bar**\n2. **Q: Baz? A: Qux**",
            ('*' ∉ p.front.data ∧ '*' ∉ p.back.data)) := by
  decide

/-- C3 amended: on that input `extractPairs` returns exactly one pair,
`{front := "Foo?", back := "Bar**"}`: the ordinal and the emphasis before
`Q:` are consumed outside the capture groups, but the trailing `**` of the
first answer is captured (the lazy group grows until the `\n2.` lookahead),
and the final block is unmatched for lack of a trailing newline. -/
theorem claim3_amended :
    extractPairs "1. **Q: Foo? A: Bar**\n2. **Q: Baz? A: Qux**"
      = [{ front := "Foo?", back := "Bar**" }] := by
  decide

/-- C4: `formatResponse` throws exactly when the content field is absent or
empty; every response with present, non-empty content yields (without
raising) the extracted pairs; and content containing no `Q:` marker yields
the empty list rather than an error. -/
theorem claim4_error_contract :
    (∀ r : ChatResponse,
        (formatResponse r).isOk = false ↔ (r.content = none ∨ r.content = some ""))
    ∧ (∀ (r : ChatResponse) (c : String), r.content = some c → c ≠ "" →
        formatResponse r = .ok (extractPairs c))
    ∧ (∀ c : String, hasMarker c.data = false → extractPairs c = []) := by
  refine ⟨?_, ?_, ?_⟩
  · intro r
    cases r with
    | mk content =>
      cases content with
      | none => simp [formatResponse, Except.isOk, Except.toBool]
      | some c =>
        by_cases hc : c = ""
        · subst hc
          simp [formatResponse, Except.isOk, Except.toBool]
        · simp [formatResponse, hc, Except.isOk, Except.toBool]
  · intro r c hrc hc
    simp [formatResponse, hrc, hc]
  · intro c h
    unfold extractPairs
    rw [regexScan_no_marker _ _ h]
    rfl

/-! ### Witnesses -/

/-- Witness for C2: excluding the tag "script" in the sample document. -/
theorem claim2_witness :
    scrapeDoc sampleDoc ["script"] [] [] []
      = emitTexts ((keptCandidates sampleDoc [] [] [] []).filter
          (fun p => !(p.2.any (fun n => n.tag == "script")))) :=
  claim2_exclude_tag sampleDoc [] [] [] [] "script" (by decide)
    (fun s hs => absurd hs (List.not_mem_nil s))

/-- Witness for C4 at the concrete marker-free content "hello". -/
theorem claim4_witness :
    formatResponse ⟨some "hello"⟩ = .ok (extractPairs "hello")
    ∧ extractPairs "hello" = [] :=
  ⟨claim4_error_contract.2.1 ⟨some "hello"⟩ "hello" rfl (by decide),
   claim4_error_contract.2.2 "hello" (by decide)⟩

/-- Witness for C6 at a concrete URL and filter. -/
theorem claim6_witness :
    scrapePage (some "https://example.com") none ["nav"] [] [] [] = .ok []
    ∧ scrapePage (some "https://example.com") (some Forest.nil) ["nav"] [] [] [] = .ok [] :=
  claim6_silent_empty "https://example.com" (by decide) ["nav"] [] [] []

/-- Witness for C7: the fragment "hello world" emitted for `wsDoc` is
non-empty and is the normalized text of one of its elements. -/
theorem claim7_witness :
    "hello world" ≠ ""
    ∧ ∃ p ∈ collectElements [] wsDoc, "hello world" = normalizeWs p.1.textContent :=
  claim7_normalization.1 wsDoc [] [] [] [] "hello world" (by decide)

/-- Witness for C8 at concrete arguments. -/
theorem claim8_witness :
    scrapePage (some "https://example.com") (some sampleDoc) [] [] [] []
      = scrapePage (some "https://example.com") (some sampleDoc) [] [] [] [] :=
  claim8_deterministic (some "https://example.com") (some sampleDoc) [] [] [] [] _ _ rfl rfl

/-- Witness for C9 at a concrete absent URL. -/
theorem claim9_witness :
    scrapePage none (some sampleDoc) [] [] [] [] = .error "Invalid URL provided" :=
  claim9_invalid_url none (some sampleDoc) [] [] [] [] (Or.inl rfl)

/-- Witness for C10 with the concrete entry "script". -/
theorem claim10_witness :
    List.Sublist (scrapeDoc sampleDoc ["script"] [] [] []) (scrapeDoc sampleDoc [] [] [] [])
    ∧ List.Sublist (scrapeDoc sampleDoc [] ["script"] [] []) (scrapeDoc sampleDoc [] [] [] [])
    ∧ List.Sublist (scrapeDoc sampleDoc [] [] ["script"] []) (scrapeDoc sampleDoc [] [] [] []) :=
  claim10_exclusion_monotone sampleDoc [] [] [] [] "script" (by decide)

end PageText
